import Mathlib

/-!
Shallow embedding of the `python_hadoop` repository (files
`hadoop_lib/hadoop_env.py` and `hadoop_lib/stream.py`): a single-process
simulation of the MapReduce model.  Python dictionaries are modelled as
insertion-ordered association lists (CPython dicts preserve insertion
order), machine state is passed explicitly, and exceptions are modelled
with `Except` / `Option` results.
-/

set_option autoImplicit false
set_option linter.unusedSectionVars false

namespace PyHadoop

variable {K V : Type} [DecidableEq K]

/-- Membership test `key in d` for a Python dict modelled as an
insertion-ordered association list. -/
def hasKey (groups : List (K × List V)) (key : K) : Bool :=
  groups.any (fun p => decide (p.1 = key))

/-- Body of `ShuffleStream.write` (hadoop_env.py lines 87-91) acting on the
dict `self.shuffle_pair`: if the key is present, append the value to its
list (the entry keeps its position, as a CPython dict update does);
otherwise add a new entry at the end (insertion order). -/
def dictAppend (groups : List (K × List V)) (key : K) (value : V) : List (K × List V) :=
  if hasKey groups key then
    groups.map (fun p => if p.1 = key then (p.1, p.2 ++ [value]) else p)
  else
    groups ++ [(key, [value])]

/-- State of a `ShuffleStream` (hadoop_env.py lines 74-109):
`shuffle_pair` is the grouping dict, `write_phase` the private
`__write_phase` flag, `open_state` the inherited `Stream.open_state`
(the Python `__init__` leaves `open_state` unset until the first
`__enter__`; it is only ever queried after a scope has run, so we model
the initial value as `false`). -/
structure ShuffleStream (K V : Type) where
  shuffle_pair : List (K × List V)
  write_phase : Bool
  open_state : Bool
  deriving DecidableEq

/-- `ShuffleStream.__init__`: empty dict, write phase. -/
def ShuffleStream.init : ShuffleStream K V :=
  { shuffle_pair := [], write_phase := true, open_state := false }

/-- `ShuffleStream.write(key, value)` (lines 87-91).  Note the Python
method checks neither the phase nor the open state: it updates the dict
unconditionally. -/
def ShuffleStream.write (s : ShuffleStream K V) (key : K) (value : V) : ShuffleStream K V :=
  { s with shuffle_pair := dictAppend s.shuffle_pair key value }

/-- What `ShuffleStream.__enter__` returns: in the write phase, `self`
(a write handle); in the read phase, an iterator over
`self.shuffle_pair.items()`. -/
inductive EnterResult (K V : Type) where
  | writeHandle : EnterResult K V
  | readIter : List (K × List V) → EnterResult K V
  deriving DecidableEq

/-- `ShuffleStream.__enter__` (lines 93-102): sets `open_state` to true
(via `Stream.__enter__`) and returns the write handle or the read
iterator according to the phase. -/
def ShuffleStream.enter (s : ShuffleStream K V) : ShuffleStream K V × EnterResult K V :=
  if s.write_phase then
    ({ s with open_state := true }, EnterResult.writeHandle)
  else
    ({ s with open_state := true }, EnterResult.readIter s.shuffle_pair)

/-- `ShuffleStream.__exit__` (lines 104-109): sets `open_state` to false
(via `Stream.__exit__`); on leaving the write scope it flips
`__write_phase` to false, on leaving the read scope it replaces
`shuffle_pair` with a fresh empty dict. -/
def ShuffleStream.exit (s : ShuffleStream K V) : ShuffleStream K V :=
  if s.write_phase then
    { s with open_state := false, write_phase := false }
  else
    { s with open_state := false, shuffle_pair := [] }

/-- A sequence of `write` calls, in order. -/
def ShuffleStream.writeList (s : ShuffleStream K V) (ws : List (K × V)) : ShuffleStream K V :=
  ws.foldl (fun t p => t.write p.1 p.2) s

/-- The grouping dict produced by a write sequence on a fresh dict. -/
def writeRun (ws : List (K × V)) : List (K × List V) :=
  ws.foldl (fun g p => dictAppend g p.1 p.2) []

/-- Reading a group out of the dict (`self.shuffle_pair[key]`). -/
def lookupGroup (groups : List (K × List V)) (key : K) : Option (List V) :=
  (groups.find? (fun p => decide (p.1 = key))).map (fun p => p.2)

/-- The subsequence of values of `ws` whose key is `key`, in order. -/
def filteredValues (ws : List (K × V)) (key : K) : List V :=
  (ws.filter (fun p => decide (p.1 = key))).map (fun p => p.2)

/-- The keys of a write sequence in first-occurrence order (the
insertion order of a CPython dict). -/
def firstKeys (ks : List K) : List K :=
  ks.foldl (fun acc k => if k ∈ acc then acc else acc ++ [k]) []

/-- The shuffle-stream state after the orchestrated map scope: enter the
write scope, perform the writes, close the scope (which flips the phase
to READ). -/
def afterMapScope (ws : List (K × V)) : ShuffleStream K V :=
  (((ShuffleStream.init.enter).1.writeList ws)).exit

/-- The shuffle-stream state after one full read scope has additionally
run: enter the read scope and close it again. -/
def readDrained (ws : List (K × V)) : ShuffleStream K V :=
  (((afterMapScope ws).enter).1).exit

variable {C E : Type}

/-- Errors a job run can surface to the caller of `start_job`: an
exception raised by user callback code, or an `AssertionError` from a
failed precondition assert. -/
inductive JobError (E : Type) where
  | userError : E → JobError E
  | assertionError : JobError E
  deriving DecidableEq

/-- `HadoopContext.write` (hadoop_env.py lines 20-22): assert that the
wrapped writable stream is open, then delegate to its `write`.  A failed
assert raises (`Except.error`); nothing is written in that case. -/
def contextWrite {σ : Type} (isOpenF : σ → Bool) (writeFn : σ → K → V → σ)
    (stream : σ) (key : K) (value : V) : Except (JobError E) σ :=
  if isOpenF stream then Except.ok (writeFn stream key value)
  else Except.error JobError.assertionError

/-- A user `Mapper`: each hook either raises (an `E`) or returns the
list of `context.write(key, value)` calls it performs, in order. -/
structure MapperM (K V E : Type) where
  setup : Except E (List (K × V))
  map : K → V → Except E (List (K × V))
  cleanup : Except E (List (K × V))

/-- A user `Reducer`, analogous to `MapperM` but consuming one ordered
group of values per call. -/
structure ReducerM (K V E : Type) where
  setup : Except E (List (K × V))
  reduce : K → List V → Except E (List (K × V))
  cleanup : Except E (List (K × V))

/-- The `Mapper` base class (lines 46-57): `setup`/`cleanup` are no-ops
writing nothing; `map` raises `NotImplementedError` (the sole error
value of `Unit`). -/
def defaultMapper : MapperM K V Unit :=
  { setup := Except.ok [], map := fun _ _ => Except.error (), cleanup := Except.ok [] }

/-- The `Reducer` base class (lines 60-71). -/
def defaultReducer : ReducerM K V Unit :=
  { setup := Except.ok [], reduce := fun _ _ => Except.error (), cleanup := Except.ok [] }

/-- `HadoopOutput` as the pipeline sees it: the open flag and the
`(key, value)` records written to the sink (the textual rendering of a
record is outside the core). -/
structure OutputStream (K V : Type) where
  written : List (K × V)
  open_state : Bool
  deriving DecidableEq

/-- `HadoopOutput.write` while open: append the record to the sink. -/
def OutputStream.write (o : OutputStream K V) (key : K) (value : V) : OutputStream K V :=
  { o with written := o.written ++ [(key, value)] }

/-- The state of a fully wired `HadoopJob` together with its streams:
configuration, mapper, reducer, the records the input stream yields,
the shuffle stream, the output stream, and the open flags of the two
contexts and the input stream.  `successful` is the job flag. -/
structure JobState (C K V E : Type) where
  config : C
  mapper : MapperM K V E
  reducer : ReducerM K V E
  inputRecords : List (K × V)
  inputOpen : Bool
  shuffle : ShuffleStream K V
  outStream : OutputStream K V
  mapCtxOpen : Bool
  reduceCtxOpen : Bool
  successful : Bool

/-- `HadoopJob.__init__` (lines 113-128) followed by `set_mapper`,
`set_reducer`, `set_input_stream` and `set_output_stream`: fresh
`ShuffleStream`, `successful = False`, both contexts wired.  Open flags
start false (the Python objects simply have no `open_state` attribute
until their first `__enter__`; it is only queried after a run). -/
def mkJob (config : C) (m : MapperM K V E) (r : ReducerM K V E)
    (records : List (K × V)) : JobState C K V E :=
  { config := config, mapper := m, reducer := r,
    inputRecords := records, inputOpen := false,
    shuffle := ShuffleStream.init,
    outStream := { written := [], open_state := false },
    mapCtxOpen := false, reduceCtxOpen := false, successful := false }

/-- Observable invocations of the user hooks during `start_job`. -/
inductive JobEvent (K V : Type) where
  | mapperSetup : JobEvent K V
  | mapCall (key : K) (value : V) : JobEvent K V
  | mapperCleanup : JobEvent K V
  | reducerSetup : JobEvent K V
  | reduceCall (key : K) (values : List V) : JobEvent K V
  | reducerCleanup : JobEvent K V
  deriving DecidableEq

/-- Perform a hook's `context.write` calls in order; the first failed
assert aborts (an exception propagates out of the hook). -/
def writeEmissions {σ : Type} (isOpenF : σ → Bool) (writeFn : σ → K → V → σ) :
    σ → List (K × V) → σ × Option (JobError E)
  | s, [] => (s, none)
  | s, (k, v) :: rest =>
    match contextWrite isOpenF writeFn s k v with
    | Except.ok s1 => writeEmissions isOpenF writeFn s1 rest
    | Except.error e => (s, some e)

/-- Run a `setup`/`cleanup` hook: an exception it raises is wrapped as a
user error, otherwise its writes are applied through the context. -/
def runHook {σ : Type} (isOpenF : σ → Bool) (writeFn : σ → K → V → σ)
    (s : σ) (hook : Except E (List (K × V))) : σ × Option (JobError E) :=
  match hook with
  | Except.error e => (s, some (JobError.userError e))
  | Except.ok ws => writeEmissions isOpenF writeFn s ws

/-- The map-phase loop (`for key, value in opened_map_context`, lines
144-145): one `mapper.map` call per record, each followed by its
`context.write`s into the shuffle stream; the first exception aborts
the loop. -/
def mapLoop (m : MapperM K V E) :
    List (K × V) → ShuffleStream K V →
      ShuffleStream K V × Option (JobError E) × List (JobEvent K V)
  | [], s => (s, none, [])
  | (k, v) :: rest, s =>
    match m.map k v with
    | Except.error e => (s, some (JobError.userError e), [JobEvent.mapCall k v])
    | Except.ok ws =>
      match writeEmissions ShuffleStream.open_state ShuffleStream.write s ws with
      | (s1, some e) => (s1, some e, [JobEvent.mapCall k v])
      | (s1, none) =>
        let r1 := mapLoop m rest s1
        (r1.1, r1.2.1, JobEvent.mapCall k v :: r1.2.2)

/-- The body of the map-phase `with` block (lines 143-146):
`mapper.setup`, the loop, `mapper.cleanup`. -/
def mapBody (m : MapperM K V E) (records : List (K × V)) (s : ShuffleStream K V) :
    ShuffleStream K V × Option (JobError E) × List (JobEvent K V) :=
  match runHook ShuffleStream.open_state ShuffleStream.write s m.setup with
  | (s1, some e) => (s1, some e, [JobEvent.mapperSetup])
  | (s1, none) =>
    match mapLoop m records s1 with
    | (s2, some e, tr) => (s2, some e, JobEvent.mapperSetup :: tr)
    | (s2, none, tr) =>
      match runHook ShuffleStream.open_state ShuffleStream.write s2 m.cleanup with
      | (s3, res) => (s3, res, JobEvent.mapperSetup :: tr ++ [JobEvent.mapperCleanup])

/-- `with self.map_context as opened_map_context: ...` (lines 142-146).
Entering opens the map context, the shuffle stream (write handle) and
the input stream (which yields its records); exiting — on error as on
success — closes the context, the input stream, and the shuffle stream
(whose exit flips the write phase to READ). -/
def runMapPhase (j : JobState C K V E) :
    JobState C K V E × Option (JobError E) × List (JobEvent K V) :=
  let body := mapBody j.mapper j.inputRecords ((j.shuffle.enter).1)
  ({ j with mapCtxOpen := false, inputOpen := false, shuffle := (body.1).exit },
    body.2.1, body.2.2)

/-- The sequence an entered shuffle stream yields to the reduce phase.
In the orchestrated run the stream is always in the READ phase here (the
map scope's exit flipped it), so the `writeHandle` branch is
unreachable. -/
def enterGroups (r : EnterResult K V) : List (K × List V) :=
  match r with
  | EnterResult.writeHandle => []
  | EnterResult.readIter g => g

/-- The reduce-phase loop (`for key, values in opened_reduce_context`,
lines 150-151). -/
def reduceLoop (r : ReducerM K V E) :
    List (K × List V) → OutputStream K V →
      OutputStream K V × Option (JobError E) × List (JobEvent K V)
  | [], o => (o, none, [])
  | (k, vs) :: rest, o =>
    match r.reduce k vs with
    | Except.error e => (o, some (JobError.userError e), [JobEvent.reduceCall k vs])
    | Except.ok ws =>
      match writeEmissions OutputStream.open_state OutputStream.write o ws with
      | (o1, some e) => (o1, some e, [JobEvent.reduceCall k vs])
      | (o1, none) =>
        let r1 := reduceLoop r rest o1
        (r1.1, r1.2.1, JobEvent.reduceCall k vs :: r1.2.2)

/-- The body of the reduce-phase `with` block (lines 149-152). -/
def reduceBody (r : ReducerM K V E) (groups : List (K × List V)) (o : OutputStream K V) :
    OutputStream K V × Option (JobError E) × List (JobEvent K V) :=
  match runHook OutputStream.open_state OutputStream.write o r.setup with
  | (o1, some e) => (o1, some e, [JobEvent.reducerSetup])
  | (o1, none) =>
    match reduceLoop r groups o1 with
    | (o2, some e, tr) => (o2, some e, JobEvent.reducerSetup :: tr)
    | (o2, none, tr) =>
      match runHook OutputStream.open_state OutputStream.write o2 r.cleanup with
      | (o3, res) => (o3, res, JobEvent.reducerSetup :: tr ++ [JobEvent.reducerCleanup])

/-- `with self.reduce_context as opened_reduce_context: ...` (lines
148-152).  Entering opens the reduce context, the output stream, and the
shuffle stream (now in READ phase, yielding its groups); exiting closes
the context, the shuffle stream (discarding the groups) and the output
stream. -/
def runReducePhase (j : JobState C K V E) :
    JobState C K V E × Option (JobError E) × List (JobEvent K V) :=
  let entered := j.shuffle.enter
  let body := reduceBody j.reducer (enterGroups entered.2)
      { j.outStream with open_state := true }
  ({ j with
      reduceCtxOpen := false
      shuffle := (entered.1).exit
      outStream := { body.1 with open_state := false } },
    body.2.1, body.2.2)

/-- `HadoopJob.start_job` (lines 138-154): the `__start_check` asserts
all pass on a fully wired job; the map phase runs inside its `with`
scope; an exception propagates to the caller (the reduce phase is
skipped); otherwise the reduce phase runs in its scope; `successful` is
set true only when both scopes completed. -/
def startJob (j : JobState C K V E) :
    JobState C K V E × Option (JobError E) × List (JobEvent K V) :=
  let mp := runMapPhase j
  match mp.2.1 with
  | some e => (mp.1, some e, mp.2.2)
  | none =>
    let rp := runReducePhase mp.1
    match rp.2.1 with
    | some e => (rp.1, some e, mp.2.2 ++ rp.2.2)
    | none => ({ rp.1 with successful := true }, none, mp.2.2 ++ rp.2.2)

/-- The exception raised by the first failing `mapper.map` call, if the
loop reaches one. -/
def firstMapError (m : MapperM K V E) : List (K × V) → Option E
  | [] => none
  | (k, v) :: rest =>
    match m.map k v with
    | Except.error e => some e
    | Except.ok _ => firstMapError m rest

/-- A heap of Python dict objects (here `str → int` dicts suffice),
addressed by reference; models CPython reference semantics for the job
configuration. -/
structure DictHeap where
  cells : List (List (String × Nat))
  deriving DecidableEq

/-- Dereference: the dict object behind `r` (empty for a dangling
reference, which never arises in the modelled runs). -/
def DictHeap.get (h : DictHeap) (r : Nat) : List (String × Nat) :=
  (h.cells[r]?).getD []

/-- `d[key] = value` on a dict value (insertion-ordered, like
`dictAppend` but replacing instead of appending). -/
def pyDictSet (d : List (String × Nat)) (key : String) (value : Nat) : List (String × Nat) :=
  if d.any (fun p => decide (p.1 = key)) then
    d.map (fun p => if p.1 = key then (p.1, value) else p)
  else d ++ [(key, value)]

/-- `dst.update(src)` on dict values. -/
def pyDictUpdate (dst src : List (String × Nat)) : List (String × Nat) :=
  src.foldl (fun d p => pyDictSet d p.1 p.2) dst

/-- `dict()`: allocate a fresh dict object, returning its reference. -/
def DictHeap.alloc (h : DictHeap) (d : List (String × Nat)) : DictHeap × Nat :=
  ({ cells := h.cells ++ [d] }, h.cells.length)

/-- `obj[key] = value` executed on the dict object behind reference `r`. -/
def DictHeap.setItem (h : DictHeap) (r : Nat) (key : String) (value : Nat) : DictHeap :=
  { cells := h.cells.set r (pyDictSet (h.get r) key value) }

/-- `obj.update(src)` executed on the dict object behind reference `r`. -/
def DictHeap.updateCell (h : DictHeap) (r : Nat) (src : List (String × Nat)) : DictHeap :=
  { cells := h.cells.set r (pyDictUpdate (h.get r) src) }

/-- A `HadoopJob` reduced to its configuration field: the reference to
the dict object stored in `self.config`. -/
structure HadoopJobRef where
  configRef : Nat
  deriving DecidableEq

/-- The configuration handling of `HadoopJob.__init__` (lines 113-126)
under reference semantics: `self.config = dict()` allocates a fresh
dict; `if config is not None: self.config.update(config)` copies the
caller's dict contents into the job's own dict. -/
def HadoopJobRef.init (h : DictHeap) (config : Option Nat) : DictHeap × HadoopJobRef :=
  let a := h.alloc []
  match config with
  | none => (a.1, { configRef := a.2 })
  | some cr => ((a.1).updateCell a.2 ((a.1).get cr), { configRef := a.2 })

/-- Heap after `HadoopJob.__init__`. -/
def heapAfterInit (h : DictHeap) (config : Option Nat) : DictHeap :=
  (HadoopJobRef.init h config).1

/-- The job object produced by `HadoopJob.__init__`. -/
def jobRefOf (h : DictHeap) (config : Option Nat) : HadoopJobRef :=
  (HadoopJobRef.init h config).2

/-- A `HadoopContext` reduced to its configuration field:
`set_input_stream`/`set_output_stream` (lines 159-169) pass the job's
`self.config` reference into `HadoopContext.__init__`, which stores it. -/
structure HadoopContextRef where
  config : Nat
  deriving DecidableEq

/-- The context wiring of `set_input_stream` / `set_output_stream`. -/
def contextOf (j : HadoopJobRef) : HadoopContextRef :=
  { config := j.configRef }

/-- `HadoopContext.get_configuration` (lines 24-25): `return self.config`
— the reference itself, not a copy or a read-only view. -/
def HadoopContextRef.get_configuration (c : HadoopContextRef) : Nat :=
  c.config

/-- Python `str.strip()` with no argument: drop leading and trailing
whitespace. -/
def pyStrip (s : String) : String :=
  { data := ((s.data.dropWhile Char.isWhitespace).reverse.dropWhile Char.isWhitespace).reverse }

/-- `default_format_func` of `HadoopInput.__init__` (lines 191-192):
`(line_id, line.strip())`. -/
def default_format_func (line_id : Nat) (line : String) : Nat × String :=
  (line_id, pyStrip line)

/-- The inner loop of `__get_assembled_input_stream` over one file's
lines: yield `format_func(current_line, line)` and increment the
counter; returns the yielded records and the counter after the file. -/
def emitFile {α : Type} (format_func : Nat → String → α) :
    List String → Nat → List α × Nat
  | [], n => ([], n)
  | line :: rest, n =>
    let r := emitFile format_func rest (n + 1)
    (format_func n line :: r.1, r.2)

/-- `HadoopInput.__get_assembled_input_stream` (lines 225-231): files
are visited in path order with a single `current_line` counter that is
never reset at a file boundary. -/
def assembledInputStream {α : Type} (format_func : Nat → String → α) :
    List (List String) → Nat → List α
  | [], _ => []
  | file :: files, n =>
    let r := emitFile format_func file n
    r.1 ++ assembledInputStream format_func files r.2

end PyHadoop

namespace PyHadoop

variable {K V : Type} [DecidableEq K]

@[ext] theorem ShuffleStream.ext {s t : ShuffleStream K V}
    (hp : s.shuffle_pair = t.shuffle_pair) (hw : s.write_phase = t.write_phase)
    (ho : s.open_state = t.open_state) : s = t := by
  cases s; cases t; simp_all

theorem writeList_shuffle_pair (s : ShuffleStream K V) (ws : List (K × V)) :
    (s.writeList ws).shuffle_pair = ws.foldl (fun g p => dictAppend g p.1 p.2) s.shuffle_pair := by
  induction ws generalizing s with
  | nil => rfl
  | cons p rest ih =>
      simp only [ShuffleStream.writeList, List.foldl_cons] at *
      exact ih (s.write p.1 p.2)

theorem writeList_write_phase (s : ShuffleStream K V) (ws : List (K × V)) :
    (s.writeList ws).write_phase = s.write_phase := by
  induction ws generalizing s with
  | nil => rfl
  | cons p rest ih =>
      simp only [ShuffleStream.writeList, List.foldl_cons] at *
      exact ih (s.write p.1 p.2)

theorem writeList_open_state (s : ShuffleStream K V) (ws : List (K × V)) :
    (s.writeList ws).open_state = s.open_state := by
  induction ws generalizing s with
  | nil => rfl
  | cons p rest ih =>
      simp only [ShuffleStream.writeList, List.foldl_cons] at *
      exact ih (s.write p.1 p.2)

theorem afterMapScope_eq (ws : List (K × V)) :
    afterMapScope ws =
      { shuffle_pair := writeRun ws, write_phase := false, open_state := false } := by
  have h1 : ((ShuffleStream.init.enter).1 : ShuffleStream K V)
      = { shuffle_pair := [], write_phase := true, open_state := true } := rfl
  have h2 := writeList_shuffle_pair ((ShuffleStream.init.enter).1 : ShuffleStream K V) ws
  have h3 := writeList_write_phase ((ShuffleStream.init.enter).1 : ShuffleStream K V) ws
  have h4 := writeList_open_state ((ShuffleStream.init.enter).1 : ShuffleStream K V) ws
  rw [h1] at h2 h3 h4
  simp only [afterMapScope, ShuffleStream.exit, h3]
  simp only [h1, writeRun] at *
  ext1 <;> simp_all [ShuffleStream.exit]

theorem filteredValues_nil (k : K) : filteredValues ([] : List (K × V)) k = [] := rfl

theorem filteredValues_cons (p : K × V) (ws : List (K × V)) (k : K) :
    filteredValues (p :: ws) k
      = if p.1 = k then p.2 :: filteredValues ws k else filteredValues ws k := by
  simp only [filteredValues, List.filter_cons]
  by_cases h : p.1 = k <;> simp [h]

theorem lookupGroup_eq_none (g : List (K × List V)) (k : K) (h : hasKey g k = false) :
    lookupGroup g k = none := by
  induction g with
  | nil => rfl
  | cons p rest ih =>
      simp only [hasKey, List.any_cons, Bool.or_eq_false_iff, decide_eq_false_iff_not] at h
      simp only [lookupGroup, List.find?_cons, decide_eq_false h.1]
      exact ih (by simp [hasKey, h.2])

theorem hasKey_true_iff (g : List (K × List V)) (k : K) :
    hasKey g k = true ↔ k ∈ g.map Prod.fst := by
  induction g with
  | nil => simp [hasKey]
  | cons p rest ih =>
      simp only [hasKey, List.any_cons, Bool.or_eq_true, decide_eq_true_eq, List.map_cons,
        List.mem_cons] at *
      constructor
      · rintro (h | h)
        · exact Or.inl h.symm
        · exact Or.inr (ih.mp h)
      · rintro (h | h)
        · exact Or.inl h.symm
        · exact Or.inr (ih.mpr h)

theorem hasKey_false_iff (g : List (K × List V)) (k : K) :
    hasKey g k = false ↔ k ∉ g.map Prod.fst := by
  constructor
  · intro h hmem
    rw [(hasKey_true_iff g k).mpr hmem] at h
    cases h
  · intro h
    cases hh : hasKey g k
    · rfl
    · exact absurd ((hasKey_true_iff g k).mp hh) h

theorem hasKey_true_exists (g : List (K × List V)) (k : K) (h : hasKey g k = true) :
    ∃ vs, lookupGroup g k = some vs := by
  induction g with
  | nil => simp [hasKey] at h
  | cons p rest ih =>
      by_cases hp : p.1 = k
      · exact ⟨p.2, by simp [lookupGroup, List.find?_cons, hp]⟩
      · simp only [hasKey, List.any_cons, Bool.or_eq_true, decide_eq_true_eq] at h
        rcases h with h | h
        · exact absurd h hp
        · obtain ⟨vs, hvs⟩ := ih h
          refine ⟨vs, ?_⟩
          simpa [lookupGroup, List.find?_cons, hp] using hvs

theorem lookup_append_new (g : List (K × List V)) (key k : K) (v : V)
    (h : hasKey g key = false) :
    lookupGroup (g ++ [(key, [v])]) k
      = if k = key then some [v] else lookupGroup g k := by
  induction g with
  | nil =>
      by_cases hk : k = key
      · simp [lookupGroup, List.find?_cons, hk]
      · have hk2 : ¬key = k := fun hh => hk hh.symm
        simp [lookupGroup, List.find?_cons, hk, hk2]
  | cons p rest ih =>
      simp only [hasKey, List.any_cons, Bool.or_eq_false_iff, decide_eq_false_iff_not] at h
      by_cases hp : p.1 = k
      · have hk : ¬k = key := fun hh => h.1 (hp.trans hh)
        simp [lookupGroup, List.find?_cons, hp, hk]
      · simp only [List.cons_append, lookupGroup, List.find?_cons, decide_eq_false hp]
        exact ih (by simp [hasKey, h.2])

theorem lookup_update (g : List (K × List V)) (key k : K) (v : V) :
    lookupGroup (g.map (fun p => if p.1 = key then (p.1, p.2 ++ [v]) else p)) k
      = if k = key then (lookupGroup g k).map (fun vs => vs ++ [v])
        else lookupGroup g k := by
  induction g with
  | nil => by_cases hk : k = key <;> simp [lookupGroup, hk]
  | cons p rest ih =>
      by_cases hp : p.1 = key
      · by_cases hpk : p.1 = k
        · have hk : k = key := hpk.symm.trans hp
          simp [lookupGroup, List.find?_cons, hp, hpk, hk]
        · have hk : ¬k = key := fun hh => hpk (hp.trans hh.symm)
          simp only [List.map_cons, if_pos hp, lookupGroup, List.find?_cons, decide_eq_false hpk,
            hk, if_neg hk] at *
          simpa [hk] using ih
      · by_cases hpk : p.1 = k
        · have hk : ¬k = key := fun hh => hp (hpk.trans hh)
          simp [lookupGroup, List.find?_cons, hp, hpk, hk]
        · simp only [List.map_cons, if_neg hp, lookupGroup, List.find?_cons,
            decide_eq_false hpk] at *
          exact ih

theorem lookup_dictAppend (g : List (K × List V)) (key k : K) (v : V) :
    lookupGroup (dictAppend g key v) k
      = if k = key then some (((lookupGroup g k).getD []) ++ [v])
        else lookupGroup g k := by
  by_cases hk : hasKey g key
  · simp only [dictAppend, if_pos hk, lookup_update]
    by_cases hkk : k = key
    · subst hkk
      obtain ⟨vs, hvs⟩ := hasKey_true_exists g k hk
      simp [hvs]
    · simp [hkk]
  · simp only [dictAppend, if_neg hk]
    rw [lookup_append_new g key k v (by simpa using hk)]
    by_cases hkk : k = key
    · subst hkk
      rw [lookupGroup_eq_none g k (by simpa using hk)]
      simp
    · simp [hkk]

theorem lookup_foldl_some (ws : List (K × V)) (g : List (K × List V)) (k : K)
    (vs : List V) (h : lookupGroup g k = some vs) :
    lookupGroup (ws.foldl (fun t p => dictAppend t p.1 p.2) g) k
      = some (vs ++ filteredValues ws k) := by
  induction ws generalizing g vs with
  | nil => simpa [filteredValues] using h
  | cons p rest ih =>
      simp only [List.foldl_cons]
      rw [filteredValues_cons]
      by_cases hk : p.1 = k
      · have : lookupGroup (dictAppend g p.1 p.2) k = some (vs ++ [p.2]) := by
          rw [lookup_dictAppend, if_pos hk.symm, h]; rfl
        rw [ih (dictAppend g p.1 p.2) (vs ++ [p.2]) this, if_pos hk]
        simp
      · have : lookupGroup (dictAppend g p.1 p.2) k = some vs := by
          rw [lookup_dictAppend, if_neg (fun hh => hk hh.symm)]; exact h
        rw [ih (dictAppend g p.1 p.2) vs this, if_neg hk]

theorem lookup_foldl_none (ws : List (K × V)) (g : List (K × List V)) (k : K)
    (h : lookupGroup g k = none) :
    lookupGroup (ws.foldl (fun t p => dictAppend t p.1 p.2) g) k
      = if (filteredValues ws k).isEmpty then none else some (filteredValues ws k) := by
  induction ws generalizing g with
  | nil => simpa [filteredValues] using h
  | cons p rest ih =>
      simp only [List.foldl_cons]
      rw [filteredValues_cons]
      by_cases hk : p.1 = k
      · have h1 : lookupGroup (dictAppend g p.1 p.2) k = some [p.2] := by
          rw [lookup_dictAppend, if_pos hk.symm, h]; rfl
        rw [lookup_foldl_some rest (dictAppend g p.1 p.2) k [p.2] h1, if_pos hk]
        simp
      · have h1 : lookupGroup (dictAppend g p.1 p.2) k = none := by
          rw [lookup_dictAppend, if_neg (fun hh => hk hh.symm)]; exact h
        rw [ih (dictAppend g p.1 p.2) h1, if_neg hk]

theorem lookup_writeRun (ws : List (K × V)) (k : K) (hk : k ∈ ws.map Prod.fst) :
    lookupGroup (writeRun ws) k = some (filteredValues ws k) := by
  have hnil : filteredValues ws k ≠ [] := by
    obtain ⟨p, hp, hfst⟩ := List.mem_map.mp hk
    have hmem : p ∈ ws.filter (fun q => decide (q.1 = k)) :=
      List.mem_filter.mpr ⟨hp, by simp [hfst]⟩
    intro hcontra
    have h2 : ws.filter (fun q => decide (q.1 = k)) = [] := by
      simpa [filteredValues] using hcontra
    exact List.ne_nil_of_mem hmem h2
  rw [writeRun, lookup_foldl_none ws [] k rfl]
  cases hfe : filteredValues ws k with
  | nil => exact absurd hfe hnil
  | cons a l => simp

theorem mem_firstKeys_foldl (ks : List K) (acc : List K) (x : K) :
    x ∈ ks.foldl (fun acc k => if k ∈ acc then acc else acc ++ [k]) acc
      ↔ x ∈ acc ∨ x ∈ ks := by
  induction ks generalizing acc with
  | nil => simp
  | cons k rest ih =>
      simp only [List.foldl_cons, ih, List.mem_cons]
      by_cases hmem : k ∈ acc
      · simp only [if_pos hmem]
        constructor
        · rintro (h | h)
          · exact Or.inl h
          · exact Or.inr (Or.inr h)
        · rintro (h | h | h)
          · exact Or.inl h
          · exact Or.inl (h ▸ hmem)
          · exact Or.inr h
      · simp only [if_neg hmem, List.mem_append, List.mem_singleton]
        tauto

theorem mem_firstKeys (ks : List K) (x : K) : x ∈ firstKeys ks ↔ x ∈ ks := by
  rw [firstKeys, mem_firstKeys_foldl]
  simp

theorem firstKeys_concat (ks : List K) (k : K) :
    firstKeys (ks ++ [k])
      = if k ∈ firstKeys ks then firstKeys ks else firstKeys ks ++ [k] := by
  simp [firstKeys, List.foldl_append]

theorem filteredValues_concat (ws : List (K × V)) (key k : K) (v : V) :
    filteredValues (ws ++ [(key, v)]) k
      = filteredValues ws k ++ (if key = k then [v] else []) := by
  simp only [filteredValues, List.filter_append, List.map_append]
  by_cases h : key = k <;> simp [List.filter_cons, h]

theorem writeRun_concat (ws : List (K × V)) (p : K × V) :
    writeRun (ws ++ [p]) = dictAppend (writeRun ws) p.1 p.2 := by
  simp [writeRun, List.foldl_append]

theorem hasKey_map_spec (l : List K) (f : K → List V) (key : K) :
    hasKey (l.map fun k => (k, f k)) key = true ↔ key ∈ l := by
  rw [hasKey_true_iff]
  simp [List.map_map, Function.comp]

theorem filteredValues_eq_nil (ws : List (K × V)) (k : K) (h : k ∉ ws.map Prod.fst) :
    filteredValues ws k = [] := by
  induction ws with
  | nil => rfl
  | cons p rest ih =>
      simp only [List.map_cons, List.mem_cons] at h
      push_neg at h
      rw [filteredValues_cons, if_neg (fun hh => h.1 hh.symm)]
      exact ih h.2

theorem writeRun_eq_spec (ws : List (K × V)) :
    writeRun ws
      = (firstKeys (ws.map Prod.fst)).map (fun k => (k, filteredValues ws k)) := by
  induction ws using List.reverseRecOn with
  | nil => rfl
  | append_singleton ws p ih =>
      obtain ⟨key, v⟩ := p
      rw [writeRun_concat, ih]
      simp only [List.map_append, List.map_cons, List.map_nil, firstKeys_concat]
      by_cases hmem : key ∈ firstKeys (ws.map Prod.fst)
      · rw [if_pos hmem, dictAppend]
        rw [if_pos ((hasKey_map_spec _ _ _).mpr hmem)]
        rw [List.map_map]
        apply List.map_congr_left
        intro k _
        by_cases hk : k = key
        · subst hk
          simp [filteredValues_concat, Function.comp]
        · have : ¬key = k := fun hh => hk hh.symm
          simp [filteredValues_concat, Function.comp, hk, this]
      · rw [if_neg hmem, dictAppend]
        have hfalse : hasKey ((firstKeys (ws.map Prod.fst)).map fun k =>
            (k, filteredValues ws k)) key = false := by
          cases hh : hasKey ((firstKeys (ws.map Prod.fst)).map fun k =>
              (k, filteredValues ws k)) key
          · rfl
          · exact absurd ((hasKey_map_spec _ _ _).mp hh) hmem
        rw [if_neg (by simp [hfalse])]
        rw [List.map_append]
        congr 1
        · apply List.map_congr_left
          intro k hkmem
          have hk : ¬key = k := by
            intro hh
            exact hmem (hh ▸ hkmem)
          simp [filteredValues_concat, hk]
        · have hnot : key ∉ ws.map Prod.fst := fun hh => hmem ((mem_firstKeys _ _).mpr hh)
          simp [filteredValues_concat, filteredValues_eq_nil ws key hnot]

/-- C1: the claim says a `write` after the write scope has closed (phase
flipped WRITE to READ) is rejected and does not append.  The code has no
such guard: on a fresh `ShuffleStream` whose write scope was entered and
exited once (so `__write_phase` is now false, i.e. READ), a direct
`write(7, 5)` still appends the value to the groups. -/
theorem shuffle_write_after_phase_flip :
    ((((ShuffleStream.init (K := Nat) (V := Nat)).enter).1).exit).write_phase = false
    ∧ (((((ShuffleStream.init (K := Nat) (V := Nat)).enter).1).exit).write 7 5).shuffle_pair
        = [(7, [5])] :=
  ⟨rfl, rfl⟩

/-- C2: for a fresh `ShuffleStream`, after the write-phase writes `ws`,
closing the write scope and entering the read scope, the sequence
yielded is the grouping dict, and the group for every key `k` occurring
in `ws` is exactly the subsequence of values of `ws` written under `k`,
in original write order. -/
theorem shuffle_grouping_correct (ws : List (K × V)) (k : K) (hk : k ∈ ws.map Prod.fst) :
    ((afterMapScope ws).enter).2 = EnterResult.readIter (writeRun ws)
    ∧ lookupGroup (writeRun ws) k = some (filteredValues ws k) := by
  constructor
  · rw [afterMapScope_eq]
    rfl
  · exact lookup_writeRun ws k hk

/-- Witness for C2 at the concrete write sequence
`[(1,10),(2,20),(1,30)]` and key `1`. -/
theorem shuffle_grouping_correct_witness :
    (1 ∈ ([(1, 10), (2, 20), (1, 30)] : List (Nat × Nat)).map Prod.fst)
    ∧ (((afterMapScope [(1, 10), (2, 20), (1, 30)]).enter).2
          = EnterResult.readIter (writeRun [(1, 10), (2, 20), (1, 30)])
        ∧ lookupGroup (writeRun [(1, 10), (2, 20), (1, 30)]) 1
          = some (filteredValues [(1, 10), (2, 20), (1, 30)] 1)) :=
  ⟨by decide, shuffle_grouping_correct [(1, 10), (2, 20), (1, 30)] 1 (by decide)⟩

/-- C4: after one full read scope has completed (entered and exited
after the write-to-read transition), the groups are discarded; entering
the read scope a second time yields a sequence with no groups. -/
theorem shuffle_read_drain (ws : List (K × V)) :
    (readDrained ws).shuffle_pair = []
    ∧ ((readDrained ws).enter).2 = EnterResult.readIter [] := by
  have h : readDrained ws
      = { shuffle_pair := [], write_phase := false, open_state := false } := by
    rw [readDrained, afterMapScope_eq]
    rfl
  rw [h]
  exact ⟨rfl, rfl⟩

/-- C9: the read-phase sequence yields the `(key, values)` groups in the
insertion order of each key's first write (first-occurrence order of the
keys, the order a CPython dict preserves), deterministically: it equals
a function of the write sequence alone. -/
theorem shuffle_read_order (ws : List (K × V)) :
    ((afterMapScope ws).enter).2
      = EnterResult.readIter
          ((firstKeys (ws.map Prod.fst)).map fun k => (k, filteredValues ws k)) := by
  rw [afterMapScope_eq, ← writeRun_eq_spec]
  rfl

end PyHadoop

namespace PyHadoop

variable {K V : Type} [DecidableEq K]

variable {C E : Type}

theorem write_open_state (s : ShuffleStream K V) (k : K) (v : V) :
    (s.write k v).open_state = s.open_state := rfl

theorem exit_open_state (s : ShuffleStream K V) : (s.exit).open_state = false := by
  rw [ShuffleStream.exit]
  split <;> rfl

theorem enter_open_state (s : ShuffleStream K V) : ((s.enter).1).open_state = true := by
  rw [ShuffleStream.enter]
  split <;> rfl

theorem writeEmissions_shuffle_open (ws : List (K × V)) (s : ShuffleStream K V)
    (h : s.open_state = true) :
    writeEmissions (E := E) ShuffleStream.open_state ShuffleStream.write s ws
      = (s.writeList ws, none) := by
  induction ws generalizing s with
  | nil => rfl
  | cons p rest ih =>
      obtain ⟨k, v⟩ := p
      have hcw : contextWrite (E := E) ShuffleStream.open_state ShuffleStream.write s k v
          = Except.ok (s.write k v) := by
        rw [contextWrite, if_pos h]
      simp only [writeEmissions, hcw]
      rw [ih (s.write k v) h]
      rfl

theorem mapLoop_error (m : MapperM K V E) (recs : List (K × V)) (s : ShuffleStream K V)
    (h : s.open_state = true) (e : E) (he : firstMapError m recs = some e) :
    (mapLoop m recs s).2.1 = some (JobError.userError e) := by
  induction recs generalizing s with
  | nil => simp [firstMapError] at he
  | cons p rest ih =>
      obtain ⟨k, v⟩ := p
      cases hm : m.map k v with
      | error e1 =>
          simp only [firstMapError, hm, Option.some.injEq] at he
          simp only [mapLoop, hm]
          rw [he]
      | ok ws =>
          simp only [firstMapError, hm] at he
          simp only [mapLoop, hm, writeEmissions_shuffle_open ws s h]
          show (mapLoop m rest (s.writeList ws)).2.1 = some (JobError.userError e)
          exact ih (s.writeList ws) (by rw [writeList_open_state]; exact h) he

theorem mapBody_error (m : MapperM K V E) (recs : List (K × V)) (s : ShuffleStream K V)
    (h : s.open_state = true) (ws : List (K × V)) (hsetup : m.setup = Except.ok ws)
    (e : E) (he : firstMapError m recs = some e) :
    (mapBody m recs s).2.1 = some (JobError.userError e) := by
  have hhook : runHook (E := E) ShuffleStream.open_state ShuffleStream.write s m.setup
      = (s.writeList ws, none) := by
    rw [hsetup]
    simp only [runHook]
    exact writeEmissions_shuffle_open ws s h
  have hopen : (s.writeList ws).open_state = true := by
    rw [writeList_open_state]; exact h
  have hml := mapLoop_error m recs (s.writeList ws) hopen e he
  rcases hml2 : mapLoop m recs (s.writeList ws) with ⟨s2, res, tr⟩
  rw [hml2] at hml
  simp only at hml
  rw [hml] at hml2
  simp only [mapBody, hhook, hml2]

theorem runMapPhase_successful (j : JobState C K V E) :
    (runMapPhase j).1.successful = j.successful := rfl

theorem runMapPhase_config (j : JobState C K V E) :
    (runMapPhase j).1.config = j.config := rfl

theorem runMapPhase_inputOpen (j : JobState C K V E) :
    (runMapPhase j).1.inputOpen = false := rfl

theorem runMapPhase_shuffle_open (j : JobState C K V E) :
    (runMapPhase j).1.shuffle.open_state = false :=
  exit_open_state _

theorem runMapPhase_err (j : JobState C K V E) :
    (runMapPhase j).2.1 = (mapBody j.mapper j.inputRecords ((j.shuffle.enter).1)).2.1 := rfl

theorem runReducePhase_successful (j : JobState C K V E) :
    (runReducePhase j).1.successful = j.successful := rfl

theorem runReducePhase_config (j : JobState C K V E) :
    (runReducePhase j).1.config = j.config := rfl

theorem runReducePhase_inputOpen (j : JobState C K V E) :
    (runReducePhase j).1.inputOpen = j.inputOpen := rfl

theorem runReducePhase_shuffle_open (j : JobState C K V E) :
    (runReducePhase j).1.shuffle.open_state = false :=
  exit_open_state _

theorem runReducePhase_out_open (j : JobState C K V E) :
    (runReducePhase j).1.outStream.open_state = false := rfl

/-- C6: a job's success flag starts false at construction, and after
`start_job` it is true exactly when neither phase raised: any exception
in either phase leaves it false, and only the completion of both phase
scopes sets it true. -/
theorem job_success_iff (cfg : C) (m : MapperM K V E) (r : ReducerM K V E)
    (recs : List (K × V)) :
    (mkJob cfg m r recs).successful = false
    ∧ ((startJob (mkJob cfg m r recs)).1.successful = true
        ↔ (startJob (mkJob cfg m r recs)).2.1 = none) := by
  refine ⟨rfl, ?_⟩
  rcases hm : (runMapPhase (mkJob cfg m r recs)).2.1 with _ | e
  · rcases hr : (runReducePhase (runMapPhase (mkJob cfg m r recs)).1).2.1 with _ | e2
    · simp [startJob, hm, hr]
    · have h1 : (runReducePhase (runMapPhase (mkJob cfg m r recs)).1).1.successful = false := by
        rw [runReducePhase_successful, runMapPhase_successful]; rfl
      simp [startJob, hm, hr, h1]
  · have h1 : (runMapPhase (mkJob cfg m r recs)).1.successful = false := by
      rw [runMapPhase_successful]; rfl
    simp [startJob, hm, h1]

/-- C5: if, on some record reached by the map loop, the mapper's `map`
raises (with `setup` having succeeded), then the error propagates to the
caller of `start_job`, the success flag stays false, and the streams the
orchestrator opened are closed afterwards: `is_open()` is false on the
input stream and on the shuffle store. -/
theorem map_failure_behavior (cfg : C) (m : MapperM K V E) (r : ReducerM K V E)
    (recs ws : List (K × V)) (e : E)
    (hsetup : m.setup = Except.ok ws)
    (hmap : firstMapError m recs = some e) :
    (startJob (mkJob cfg m r recs)).2.1 = some (JobError.userError e)
    ∧ (startJob (mkJob cfg m r recs)).1.successful = false
    ∧ (startJob (mkJob cfg m r recs)).1.inputOpen = false
    ∧ (startJob (mkJob cfg m r recs)).1.shuffle.open_state = false := by
  have hopen : ((((mkJob cfg m r recs).shuffle : ShuffleStream K V).enter).1).open_state = true :=
    enter_open_state _
  have hbody := mapBody_error m recs ((((mkJob cfg m r recs).shuffle).enter).1)
    hopen ws hsetup e hmap
  have hmp : (runMapPhase (mkJob cfg m r recs)).2.1 = some (JobError.userError e) := hbody
  have hfin : startJob (mkJob cfg m r recs)
      = ((runMapPhase (mkJob cfg m r recs)).1, some (JobError.userError e),
          (runMapPhase (mkJob cfg m r recs)).2.2) := by
    simp [startJob, hmp]
  rw [hfin]
  refine ⟨rfl, ?_, runMapPhase_inputOpen _, runMapPhase_shuffle_open _⟩
  rw [runMapPhase_successful]
  rfl

/-- Witness for C5: a one-record job whose mapper raises on the first
record. -/
theorem map_failure_behavior_witness :
    ({ setup := Except.ok [], map := fun _ _ => Except.error 3,
        cleanup := Except.ok [] } : MapperM Nat Nat Nat).setup = Except.ok []
    ∧ firstMapError
        ({ setup := Except.ok [], map := fun _ _ => Except.error 3,
            cleanup := Except.ok [] } : MapperM Nat Nat Nat) [(1, 2)] = some 3
    ∧ ((startJob (mkJob 0
          ({ setup := Except.ok [], map := fun _ _ => Except.error 3,
              cleanup := Except.ok [] } : MapperM Nat Nat Nat)
          ({ setup := Except.ok [], reduce := fun _ _ => Except.error 0,
              cleanup := Except.ok [] } : ReducerM Nat Nat Nat)
          [(1, 2)])).2.1 = some (JobError.userError 3)
      ∧ (startJob (mkJob 0
          ({ setup := Except.ok [], map := fun _ _ => Except.error 3,
              cleanup := Except.ok [] } : MapperM Nat Nat Nat)
          ({ setup := Except.ok [], reduce := fun _ _ => Except.error 0,
              cleanup := Except.ok [] } : ReducerM Nat Nat Nat)
          [(1, 2)])).1.successful = false
      ∧ (startJob (mkJob 0
          ({ setup := Except.ok [], map := fun _ _ => Except.error 3,
              cleanup := Except.ok [] } : MapperM Nat Nat Nat)
          ({ setup := Except.ok [], reduce := fun _ _ => Except.error 0,
              cleanup := Except.ok [] } : ReducerM Nat Nat Nat)
          [(1, 2)])).1.inputOpen = false
      ∧ (startJob (mkJob 0
          ({ setup := Except.ok [], map := fun _ _ => Except.error 3,
              cleanup := Except.ok [] } : MapperM Nat Nat Nat)
          ({ setup := Except.ok [], reduce := fun _ _ => Except.error 0,
              cleanup := Except.ok [] } : ReducerM Nat Nat Nat)
          [(1, 2)])).1.shuffle.open_state = false) :=
  ⟨rfl, rfl, map_failure_behavior 0 _ _ [(1, 2)] [] 3 rfl rfl⟩

/-- C8: on a fully configured job whose input yields zero records,
`start_job` raises nothing, invokes `mapper.setup`, `mapper.cleanup`,
`reducer.setup` and `reducer.cleanup` exactly once each (and no
`map`/`reduce` call), leaves no shuffle groups after the map scope,
writes no output records, and sets the success flag to true.  The hook
hypotheses are the behaviour of the default no-op hooks. -/
theorem empty_input_behavior (cfg : C) (m : MapperM K V E) (r : ReducerM K V E)
    (hms : m.setup = Except.ok []) (hmc : m.cleanup = Except.ok [])
    (hrs : r.setup = Except.ok []) (hrc : r.cleanup = Except.ok []) :
    (startJob (mkJob cfg m r ([] : List (K × V)))).2.1 = none
    ∧ (startJob (mkJob cfg m r ([] : List (K × V)))).1.successful = true
    ∧ (startJob (mkJob cfg m r ([] : List (K × V)))).2.2
        = [JobEvent.mapperSetup, JobEvent.mapperCleanup,
            JobEvent.reducerSetup, JobEvent.reducerCleanup]
    ∧ (runMapPhase (mkJob cfg m r ([] : List (K × V)))).1.shuffle.shuffle_pair = []
    ∧ (startJob (mkJob cfg m r ([] : List (K × V)))).1.outStream.written = [] := by
  refine ⟨?_, ?_, ?_, ?_, ?_⟩ <;>
    simp [startJob, runMapPhase, runReducePhase, mapBody, reduceBody, runHook,
      hms, hmc, hrs, hrc, mapLoop, reduceLoop, writeEmissions, enterGroups, mkJob,
      ShuffleStream.init, ShuffleStream.enter, ShuffleStream.exit]

/-- Witness for C8: the default `Mapper` and `Reducer` base classes
(whose `map`/`reduce` raise `NotImplementedError`, but are never called
on empty input). -/
theorem empty_input_behavior_witness :
    (defaultMapper : MapperM Nat Nat Unit).setup = Except.ok []
    ∧ (defaultMapper : MapperM Nat Nat Unit).cleanup = Except.ok []
    ∧ (defaultReducer : ReducerM Nat Nat Unit).setup = Except.ok []
    ∧ (defaultReducer : ReducerM Nat Nat Unit).cleanup = Except.ok []
    ∧ ((startJob (mkJob 0 (defaultMapper : MapperM Nat Nat Unit)
          (defaultReducer : ReducerM Nat Nat Unit) ([] : List (Nat × Nat)))).2.1 = none
      ∧ (startJob (mkJob 0 (defaultMapper : MapperM Nat Nat Unit)
          (defaultReducer : ReducerM Nat Nat Unit) ([] : List (Nat × Nat)))).1.successful = true
      ∧ (startJob (mkJob 0 (defaultMapper : MapperM Nat Nat Unit)
          (defaultReducer : ReducerM Nat Nat Unit) ([] : List (Nat × Nat)))).2.2
          = [JobEvent.mapperSetup, JobEvent.mapperCleanup,
              JobEvent.reducerSetup, JobEvent.reducerCleanup]
      ∧ (runMapPhase (mkJob 0 (defaultMapper : MapperM Nat Nat Unit)
          (defaultReducer : ReducerM Nat Nat Unit) ([] : List (Nat × Nat)))).1.shuffle.shuffle_pair = []
      ∧ (startJob (mkJob 0 (defaultMapper : MapperM Nat Nat Unit)
          (defaultReducer : ReducerM Nat Nat Unit) ([] : List (Nat × Nat)))).1.outStream.written = []) :=
  ⟨rfl, rfl, rfl, rfl, empty_input_behavior 0 defaultMapper defaultReducer rfl rfl rfl rfl⟩

/-- C7: `context.write(key, value)` with the wrapped writable stream
closed fails with a precondition violation (an `AssertionError`, not a
silent drop); with the stream open, the write is delegated to the
stream's own `write`. -/
theorem context_write_guard {σ : Type} (isOpenF : σ → Bool) (writeFn : σ → K → V → σ)
    (stream : σ) (k : K) (v : V) :
    (isOpenF stream = false →
      contextWrite (E := E) isOpenF writeFn stream k v
        = Except.error JobError.assertionError)
    ∧ (isOpenF stream = true →
      contextWrite (E := E) isOpenF writeFn stream k v
        = Except.ok (writeFn stream k v)) := by
  constructor
  · intro h
    rw [contextWrite, if_neg]
    rw [h]
    simp
  · intro h
    rw [contextWrite, if_pos h]

/-- Witness for C7: writing through a context whose output stream is
closed, and through one whose output stream is open. -/
theorem context_write_guard_witness :
    (OutputStream.open_state ({ written := [], open_state := false } : OutputStream Nat Nat)
        = false
      ∧ contextWrite (E := Unit) OutputStream.open_state OutputStream.write
          ({ written := [], open_state := false } : OutputStream Nat Nat) 1 2
        = Except.error JobError.assertionError)
    ∧ (OutputStream.open_state ({ written := [], open_state := true } : OutputStream Nat Nat)
        = true
      ∧ contextWrite (E := Unit) OutputStream.open_state OutputStream.write
          ({ written := [], open_state := true } : OutputStream Nat Nat) 1 2
        = Except.ok ({ written := [(1, 2)], open_state := true } : OutputStream Nat Nat)) :=
  ⟨⟨rfl, (context_write_guard OutputStream.open_state OutputStream.write
      ({ written := [], open_state := false } : OutputStream Nat Nat) 1 2).1 rfl⟩,
    ⟨rfl, (context_write_guard OutputStream.open_state OutputStream.write
      ({ written := [], open_state := true } : OutputStream Nat Nat) 1 2).2 rfl⟩⟩

theorem heapAfterInit_length (h : DictHeap) (cfgSrc : Option Nat) :
    (heapAfterInit h cfgSrc).cells.length = h.cells.length + 1 := by
  cases cfgSrc <;>
    simp [heapAfterInit, HadoopJobRef.init, DictHeap.alloc, DictHeap.updateCell]

theorem jobRefOf_configRef (h : DictHeap) (cfgSrc : Option Nat) :
    (jobRefOf h cfgSrc).configRef = h.cells.length := by
  cases cfgSrc <;> rfl

theorem get_setItem_self (h : DictHeap) (r : Nat) (key : String) (v : Nat)
    (hr : r < h.cells.length) :
    (h.setItem r key v).get r = pyDictSet (h.get r) key v := by
  simp [DictHeap.setItem, DictHeap.get, List.getElem?_set, hr]

theorem startJob_config (j : JobState C K V E) :
    (startJob j).1.config = j.config := by
  rcases hm : (runMapPhase j).2.1 with _ | e
  · rcases hr : (runReducePhase (runMapPhase j).1).2.1 with _ | e2
    · simp [startJob, hm, hr, runReducePhase_config, runMapPhase_config]
    · simp [startJob, hm, hr, runReducePhase_config, runMapPhase_config]
  · simp [startJob, hm, runMapPhase_config]

/-- C3 amended: no pipeline operation changes the job's configuration
(running `start_job` leaves `config` untouched), and the configuration
is the job's own dict, freshly allocated at construction and filled by
copying the caller's dict — but `get_configuration` returns that dict by
reference, NOT read-only: a `d[key] = value` performed by user code on
the returned mapping updates the job's own configuration dict. -/
theorem config_reference_semantics (j : JobState C K V E) (h : DictHeap)
    (cfgSrc : Option Nat) (key : String) (v : Nat) :
    (startJob j).1.config = j.config
    ∧ (jobRefOf h cfgSrc).configRef = h.cells.length
    ∧ HadoopContextRef.get_configuration (contextOf (jobRefOf h cfgSrc))
        = (jobRefOf h cfgSrc).configRef
    ∧ DictHeap.get
        (DictHeap.setItem (heapAfterInit h cfgSrc)
          (HadoopContextRef.get_configuration (contextOf (jobRefOf h cfgSrc))) key v)
        (jobRefOf h cfgSrc).configRef
      = pyDictSet (DictHeap.get (heapAfterInit h cfgSrc) (jobRefOf h cfgSrc).configRef)
          key v := by
  refine ⟨startJob_config j, jobRefOf_configRef h cfgSrc, rfl, ?_⟩
  have hcr : HadoopContextRef.get_configuration (contextOf (jobRefOf h cfgSrc))
      = (jobRefOf h cfgSrc).configRef := rfl
  rw [hcr, jobRefOf_configRef]
  apply get_setItem_self
  rw [heapAfterInit_length]
  omega

/-- C3 counterexample: the claim that user code holding the mapping
returned by `get_configuration` cannot alter the job's configuration is
false.  Build a job with no config in an empty heap, fetch the
configuration through the context, execute `cfg["a"] = 1` on it: the
job's own configuration dict changes (from `{}` to `{"a": 1}`). -/
theorem config_not_readonly :
    DictHeap.get
        (DictHeap.setItem (heapAfterInit { cells := [] } none)
          (HadoopContextRef.get_configuration (contextOf (jobRefOf { cells := [] } none)))
          "a" 1)
        (jobRefOf { cells := [] } none).configRef
      ≠ DictHeap.get (heapAfterInit { cells := [] } none)
          (jobRefOf { cells := [] } none).configRef := by
  decide

theorem emitFile_eq {α : Type} (ff : Nat → String → α) (file : List String) (n : Nat) :
    emitFile ff file n = ((file.enumFrom n).map (fun p => ff p.1 p.2), n + file.length) := by
  induction file generalizing n with
  | nil => simp [emitFile]
  | cons l rest ih =>
      simp [emitFile, ih, List.enumFrom_cons]
      omega

theorem assembledInputStream_eq {α : Type} (ff : Nat → String → α)
    (files : List (List String)) (n : Nat) :
    assembledInputStream ff files n
      = ((files.flatten).enumFrom n).map (fun p => ff p.1 p.2) := by
  induction files generalizing n with
  | nil => simp [assembledInputStream]
  | cons file rest ih =>
      simp [assembledInputStream, emitFile_eq, ih, List.enumFrom_append]

/-- C10: with several source files and the default shaping function, the
key of each yielded record is the single zero-based `current_line` index
accumulated across all files in path order (never reset at a file
boundary), and the value is the line with surrounding whitespace
stripped: the yielded records are exactly the enumeration of the
concatenation of all files' lines. -/
theorem input_index_accumulates (files : List (List String)) (_h2 : 2 ≤ files.length) :
    assembledInputStream default_format_func files 0
      = (files.flatten).enum.map (fun p => (p.1, pyStrip p.2)) := by
  rw [assembledInputStream_eq]
  rfl

/-- Witness for C10 with two files; the index continues from 1 to 2 at
the file boundary and values are stripped. -/
theorem input_index_accumulates_witness :
    2 ≤ ([[" a ", "b"], ["c\n"]] : List (List String)).length
    ∧ assembledInputStream default_format_func [[" a ", "b"], ["c\n"]] 0
      = (([[" a ", "b"], ["c\n"]] : List (List String)).flatten).enum.map
          (fun p => (p.1, pyStrip p.2)) :=
  ⟨by decide, input_index_accumulates [[" a ", "b"], ["c\n"]] (by decide)⟩

end PyHadoop
